import Mathlib

/-!
Shallow embedding of the mtb modeling toolkit (src/mtb) and proofs of the
specified properties.

Covered source files:
  - src/mtb/proxy.py   : differential-testing proxy (Call, make_proxy,
                         make_proxy_method)
  - src/mtb/system.py  : Component, PortIn, PortOut, port descriptors
  - src/mtb/action.py  : Action, ActionParam, get_type_default

Exception classes are values of `PyErr`. The class ModelingError is defined
in mtb/base.py (imported with a star import by mtb/action.py); only its
existence matters here, so it is one constructor of `PyErr`. TypeError and
IndexError are Python builtins raised by failed zero-argument construction
and empty-sequence indexing respectively.
-/

namespace Mtb

/-- Python exception classes that the embedded code can raise. -/
inductive PyErr where
  | modelingError
  | typeError
  | indexError
  | notImplementedError
deriving DecidableEq

/-! ## Differential-testing proxy (src/mtb/proxy.py) -/

/-- Call record from src/mtb/proxy.py lines 11-15: an immutable record of
one intercepted invocation, holding the operation name, the positional
arguments and the keyword arguments. Argument values are drawn from an
arbitrary type `Arg`; keyword arguments are keyword-value pairs. -/
structure Call (Arg : Type) where
  name : String
  args : List Arg
  kwds : List (String × Arg)
deriving DecidableEq

/-- One wrapped implementation, as the proxy observes it: invoking the
operation described by a call either returns normally (`none`) or raises
an exception carrying a value of type `E` (`some e`). Internal state of
implementations is invisible to the proxy, which only mediates calls. -/
structure Impl (Arg E : Type) where
  raises : Call Arg → Option E

/-- Observable state of one proxy run: `calls` is the shared log
(the `_calls` list that make_proxy installs, src/mtb/proxy.py line 37)
and `forwarded` is the trace of invocations delivered to the wrapped
implementations, as pairs of implementation index and call, in the order
they happened. -/
structure ProxyState (Arg : Type) where
  calls : List (Call Arg)
  forwarded : List (Nat × Call Arg)
deriving DecidableEq

/-- Initial proxy state: empty shared log, nothing forwarded yet. -/
def ProxyState.empty {Arg : Type} : ProxyState Arg := ⟨[], []⟩

/-- Loop body of proxy_func, src/mtb/proxy.py lines 51-53: invoke the
same-named operation with identical arguments on every implementation of
`self._proxy_for` in list order, starting at index `i`. An exception
raised by one implementation is not caught: it propagates immediately and
later implementations are not invoked. The invocation of the raising
implementation is still recorded in the trace, since the call did reach
it. -/
def forward_calls {Arg E : Type} (impls : List (Impl Arg E)) (i : Nat)
    (c : Call Arg) (st : ProxyState Arg) : ProxyState Arg × Option E :=
  match impls with
  | [] => (st, none)
  | impl :: rest =>
    let st1 : ProxyState Arg := { st with forwarded := st.forwarded ++ [(i, c)] }
    match impl.raises c with
    | some e => (st1, some e)
    | none => forward_calls rest (i + 1) c st1

/-- proxy_func from make_proxy_method, src/mtb/proxy.py lines 49-53:
append Call(name, args, kwds) to the shared log, then forward the call to
every wrapped implementation in list order. It returns no value (fire and
forget); the second component of the result is the uncaught exception, if
any implementation raised one. -/
def proxy_func {Arg E : Type} (impls : List (Impl Arg E)) (c : Call Arg)
    (st : ProxyState Arg) : ProxyState Arg × Option E :=
  forward_calls impls 0 c { st with calls := st.calls ++ [c] }

/-- Drive the proxy through a sequence of calls, as a test driver does.
The first uncaught exception stops the run and propagates to the driver. -/
def replay {Arg E : Type} (impls : List (Impl Arg E)) (cs : List (Call Arg))
    (st : ProxyState Arg) : ProxyState Arg × Option E :=
  match cs with
  | [] => (st, none)
  | c :: rest =>
    match proxy_func impls c st with
    | (st1, none) => replay impls rest st1
    | (st1, some e) => (st1, some e)

/-- The sequence of calls received by implementation number `i`, read off
the forwarding trace, in delivery order. -/
def received {Arg : Type} (i : Nat) (st : ProxyState Arg) : List (Call Arg) :=
  (st.forwarded.filter (fun p => p.1 == i)).map (fun p => p.2)

/-- The full fan-out of one call over `n` implementations, in index
order. -/
def fanout {Arg : Type} (n : Nat) (c : Call Arg) : List (Nat × Call Arg) :=
  (List.range n).map (fun j => (j, c))

theorem range_shift_cons {Arg : Type} (n i : Nat) (c : Call Arg) :
    (i, c) :: (List.range n).map (fun j => (i + 1 + j, c)) =
    (List.range (n + 1)).map (fun j => (i + j, c)) := by
  rw [List.range_succ_eq_map, List.map_cons, List.map_map]
  have hfun : ((fun j => (i + j, c)) ∘ Nat.succ) = (fun j => (i + 1 + j, c)) := by
    funext j
    simp only [Function.comp_apply]
    have hj : i + Nat.succ j = i + 1 + j := by omega
    rw [hj]
  rw [hfun]
  simp

theorem forward_calls_ok {Arg E : Type} (impls : List (Impl Arg E))
    (c : Call Arg) (hok : ∀ im ∈ impls, im.raises c = none) :
    ∀ (i : Nat) (cs0 : List (Call Arg)) (fw0 : List (Nat × Call Arg)),
      forward_calls impls i c ⟨cs0, fw0⟩ =
        (⟨cs0, fw0 ++ (List.range impls.length).map (fun j => (i + j, c))⟩, none) := by
  induction impls with
  | nil => intro i cs0 fw0; simp [forward_calls]
  | cons impl rest ih =>
    intro i cs0 fw0
    have h0 : impl.raises c = none := hok impl (by simp)
    have hrest : ∀ im ∈ rest, im.raises c = none := by
      intro im him; exact hok im (by simp [him])
    rw [forward_calls]
    simp only [h0]
    rw [ih hrest (i + 1) cs0 (fw0 ++ [(i, c)])]
    simp only [Prod.mk.injEq, ProxyState.mk.injEq, List.length_cons, true_and,
      and_true]
    rw [List.append_assoc, List.singleton_append, range_shift_cons]

theorem proxy_func_ok {Arg E : Type} (impls : List (Impl Arg E))
    (c : Call Arg) (hok : ∀ im ∈ impls, im.raises c = none)
    (cs0 : List (Call Arg)) (fw0 : List (Nat × Call Arg)) :
    proxy_func impls c ⟨cs0, fw0⟩ =
      (⟨cs0 ++ [c], fw0 ++ fanout impls.length c⟩, none) := by
  have hz : (List.range impls.length).map (fun j => (0 + j, c)) =
      fanout impls.length c := by
    rw [fanout]
    congr 1
    funext j
    rw [Nat.zero_add]
  rw [proxy_func]
  show forward_calls impls 0 c ⟨cs0 ++ [c], fw0⟩ = _
  rw [forward_calls_ok impls c hok 0 (cs0 ++ [c]) fw0, hz]

theorem replay_ok {Arg E : Type} (impls : List (Impl Arg E)) (cs : List (Call Arg))
    (hok : ∀ im ∈ impls, ∀ c ∈ cs, im.raises c = none) :
    ∀ (cs0 : List (Call Arg)) (fw0 : List (Nat × Call Arg)),
      replay impls cs ⟨cs0, fw0⟩ =
        (⟨cs0 ++ cs, fw0 ++ cs.flatMap (fanout impls.length)⟩, none) := by
  induction cs with
  | nil => intro cs0 fw0; simp [replay]
  | cons c rest ih =>
    intro cs0 fw0
    have hc : ∀ im ∈ impls, im.raises c = none := by
      intro im him; exact hok im him c (by simp)
    have hrest : ∀ im ∈ impls, ∀ d ∈ rest, im.raises d = none := by
      intro im him d hd; exact hok im him d (by simp [hd])
    have hred : replay impls (c :: rest) (⟨cs0, fw0⟩ : ProxyState Arg) =
        replay impls rest ⟨cs0 ++ [c], fw0 ++ fanout impls.length c⟩ := by
      rw [replay, proxy_func_ok impls c hc cs0 fw0]
    rw [hred, ih hrest]
    simp [List.append_assoc]

theorem filter_fanout {Arg : Type} (n i : Nat) (c : Call Arg) (hi : i < n) :
    (fanout n c).filter (fun p => p.1 == i) = [(i, c)] := by
  induction n with
  | zero => omega
  | succ m ih =>
    rw [fanout, List.range_succ, List.map_append, List.filter_append]
    by_cases him : i < m
    · rw [show (List.range m).map (fun j => (j, c)) = fanout m c from rfl, ih him]
      have : m ≠ i := by omega
      simp [this]
    · have him2 : i = m := by omega
      subst him2
      have : (fanout i c).filter (fun p => p.1 == i) = [] := by
        apply List.filter_eq_nil_iff.2
        intro p hp
        rcases List.mem_map.1 hp with ⟨j, hj, rfl⟩
        have : j < i := List.mem_range.1 hj
        simp
        omega
      rw [show (List.range i).map (fun j => (j, c)) = fanout i c from rfl, this]
      simp

theorem received_flatMap_fanout {Arg : Type} (n i : Nat) (cs : List (Call Arg))
    (hi : i < n) :
    ((cs.flatMap (fanout n)).filter (fun p => p.1 == i)).map (fun p => p.2) = cs := by
  induction cs with
  | nil => simp
  | cons c rest ih =>
    rw [List.flatMap_cons, List.filter_append, List.map_append, filter_fanout n i c hi]
    rw [ih]
    simp

/-- C1. For every Proxy built over a non-empty implementation list and
every sequence of calls C1..Cn to proxyable operations (none of which
raises), each call appends a Call record to the shared log and is then
forwarded to every wrapped implementation strictly in list order with
identical arguments, returning nothing: after the sequence the shared log
equals the call sequence verbatim, and every implementation received
exactly that sequence in that order. -/
theorem proxy_replay_log_and_delivery {Arg E : Type}
    (impls : List (Impl Arg E)) (cs : List (Call Arg))
    (_hne : impls ≠ [])
    (hok : ∀ im ∈ impls, ∀ c ∈ cs, im.raises c = none) :
    (replay impls cs ProxyState.empty).2 = none ∧
    (replay impls cs ProxyState.empty).1.calls = cs ∧
    ∀ i, i < impls.length →
      received i (replay impls cs ProxyState.empty).1 = cs := by
  rw [show (ProxyState.empty : ProxyState Arg) = ⟨[], []⟩ from rfl]
  rw [replay_ok impls cs hok [] []]
  refine ⟨rfl, by simp, ?_⟩
  intro i hi
  rw [received]
  simp only [List.nil_append]
  exact received_flatMap_fanout impls.length i cs hi

/-- Concrete instantiation of the C1 theorem: a proxy over two
implementations, driven through two calls. -/
theorem proxy_replay_log_and_delivery_witness :
    (replay [(⟨fun _ => none⟩ : Impl Nat Unit), ⟨fun _ => none⟩]
        [⟨"insert_card", [1], []⟩, ⟨"enter_pin", [2], []⟩] ProxyState.empty).1.calls =
      [⟨"insert_card", [1], []⟩, ⟨"enter_pin", [2], []⟩] ∧
    received 0 (replay [(⟨fun _ => none⟩ : Impl Nat Unit), ⟨fun _ => none⟩]
        [⟨"insert_card", [1], []⟩, ⟨"enter_pin", [2], []⟩] ProxyState.empty).1 =
      [⟨"insert_card", [1], []⟩, ⟨"enter_pin", [2], []⟩] := by
  have h := proxy_replay_log_and_delivery
    [(⟨fun _ => none⟩ : Impl Nat Unit), ⟨fun _ => none⟩]
    [⟨"insert_card", [1], []⟩, ⟨"enter_pin", [2], []⟩]
    (by simp)
    (by
      intro im him c hc
      simp only [List.mem_cons, List.not_mem_nil, or_false] at him
      rcases him with rfl | rfl <;> rfl)
  exact ⟨h.2.1, h.2.2 0 (by simp)⟩

theorem forward_calls_calls {Arg E : Type} (impls : List (Impl Arg E)) (c : Call Arg) :
    ∀ (i : Nat) (st : ProxyState Arg),
      (forward_calls impls i c st).1.calls = st.calls := by
  induction impls with
  | nil => intro i st; simp [forward_calls]
  | cons impl rest ih =>
    intro i st
    rw [forward_calls]
    cases h : impl.raises c with
    | some e => simp [h]
    | none =>
      simp only [h]
      exact ih (i + 1) _

theorem forward_calls_err {Arg E : Type} (impls : List (Impl Arg E)) (c : Call Arg) :
    ∀ (i : Nat) (st : ProxyState Arg),
      (forward_calls impls i c st).2 =
        impls.findSome? (fun im => im.raises c) := by
  induction impls with
  | nil => intro i st; simp [forward_calls]
  | cons impl rest ih =>
    intro i st
    rw [forward_calls]
    cases h : impl.raises c with
    | some e => simp [h, List.findSome?]
    | none =>
      simp only [h]
      rw [ih (i + 1)]
      simp [List.findSome?, h]

/-- C3. Every element appended to the shared call log of a proxy
corresponds 1:1, in order, with an invocation forwarded to all wrapped
implementations: over any call sequence in which no implementation
raises, the forwarding trace is exactly the log with each entry fanned
out to every implementation index in order. Moreover the proxy catches
nothing: a call is always appended to the log, and the outcome of a
proxied call is exactly the exception of the first implementation whose
invocation raises (none when all return normally), propagated verbatim
to the caller. -/
theorem proxy_log_forward_invariant {Arg E : Type} :
    (∀ (impls : List (Impl Arg E)) (cs : List (Call Arg)),
      (∀ im ∈ impls, ∀ c ∈ cs, im.raises c = none) →
      (replay impls cs ProxyState.empty).1.forwarded =
        (replay impls cs ProxyState.empty).1.calls.flatMap (fanout impls.length)) ∧
    (∀ (impls : List (Impl Arg E)) (c : Call Arg) (st : ProxyState Arg),
      (proxy_func impls c st).1.calls = st.calls ++ [c] ∧
      (proxy_func impls c st).2 = impls.findSome? (fun im => im.raises c)) := by
  constructor
  · intro impls cs hok
    rw [show (ProxyState.empty : ProxyState Arg) = ⟨[], []⟩ from rfl]
    rw [replay_ok impls cs hok [] []]
    simp
  · intro impls c st
    constructor
    · rw [proxy_func, forward_calls_calls]
    · rw [proxy_func, forward_calls_err]

/-- Concrete instantiation of the C3 theorem: a proxy over one
implementation that raises on every call still logs the call, and the
exception value propagates unchanged to the caller. -/
theorem proxy_log_forward_invariant_witness :
    (proxy_func [(⟨fun _ => some 7⟩ : Impl Nat Nat)] ⟨"cancel", [], []⟩
        ProxyState.empty).1.calls = [⟨"cancel", [], []⟩] ∧
    (proxy_func [(⟨fun _ => some 7⟩ : Impl Nat Nat)] ⟨"cancel", [], []⟩
        ProxyState.empty).2 = some 7 := by
  have h := (@proxy_log_forward_invariant Nat Nat).2 [⟨fun _ => some 7⟩]
    ⟨"cancel", [], []⟩ ProxyState.empty
  refine ⟨?_, ?_⟩
  · rw [h.1]
    rfl
  · rw [h.2]
    rfl

/-! ## Ports (src/mtb/system.py)

The wiring between one PortOut and the PortIn endpoints it can reach.
PortIn endpoints are identified by index into `ins`. Values sent on
ports are drawn from a type `V`; receiver functions bound on PortIn
descriptors are drawn from an abstract type `R` (in the source they are
the decorated receiver callables). Invoking a receiver is observable
only through the global `delivered` trace, which records, in order,
every call receiver(owner, value) made by PortIn logic, as a pair of
PortIn index and value. Python copy.copy produces a value-equal copy, so
at this level of abstraction the copied value is the value itself; the
aliasing consequences of copying are treated in the action-default
section below. -/

/-- One PortIn endpoint together with the state the source keeps around
it: the receiver bound on its descriptor by the receiver decorator
(src/mtb/system.py lines 142-164), if any, and the `connected` flag of
the ActionInfo attached to that receiver (set by PortIn.connect, lines
119-123). -/
structure PortInSt (R : Type) where
  receiver : Option R
  connectedFlag : Bool
deriving DecidableEq

/-- State of one PortOut (src/mtb/system.py lines 171-190): the `cached`
flag of its descriptor, the list of connected PortIn endpoints in
registration order, and the latest value stored by send. -/
structure PortOutSt (V : Type) where
  cached : Bool
  receivers : List Nat
  latest_value : Option V
deriving DecidableEq

/-- The whole wiring state: the PortIn endpoints, the PortOut under
study, and the trace of receiver invocations. -/
structure Wiring (V R : Type) where
  ins : List (PortInSt R)
  out : PortOutSt V
  delivered : List (Nat × V)
deriving DecidableEq

/-- PortIn receive, src/mtb/system.py lines 132-134: look up the bound
receiver (raising ModelingError when none is bound, line 125-130) and
invoke it with the owning component and the value; the invocation is
recorded on the trace. An out-of-range index models a dangling endpoint
reference and cannot arise from the operations below. -/
def receive {V R : Type} (i : Nat) (v : V) (w : Wiring V R) :
    Wiring V R × Option PyErr :=
  match w.ins[i]? with
  | none => (w, some PyErr.modelingError)
  | some pin =>
    match pin.receiver with
    | none => (w, some PyErr.modelingError)
    | some _ => ({ w with delivered := w.delivered ++ [(i, v)] }, none)

/-- PortIn.connect, src/mtb/system.py lines 119-123, together with
PortOut private connect, lines 181-185: first _safe_get_receiver raises
ModelingError when no receiver is bound (nothing is mutated in that
case); otherwise the receiver ActionInfo connected flag is set, the
PortIn is appended to the PortOut receiver list, and, when the PortOut
is cached and holds a value, that value is replayed to the new receiver
at once. -/
def connect {V R : Type} (i : Nat) (w : Wiring V R) :
    Wiring V R × Option PyErr :=
  match w.ins[i]? with
  | none => (w, some PyErr.modelingError)
  | some pin =>
    match pin.receiver with
    | none => (w, some PyErr.modelingError)
    | some _ =>
      let w1 : Wiring V R :=
        { w with ins := w.ins.set i { pin with connectedFlag := true } }
      let w2 : Wiring V R :=
        { w1 with out := { w1.out with receivers := w1.out.receivers ++ [i] } }
      if w2.out.cached then
        match w2.out.latest_value with
        | some v => receive i v w2
        | none => (w2, none)
      else
        (w2, none)

/-- Delivery loop of PortOut.send, src/mtb/system.py lines 189-190:
deliver the stored value to every registered receiver in registration
order; an exception from receive propagates at once. -/
def send_loop {V R : Type} (rs : List Nat) (v : V) (w : Wiring V R) :
    Wiring V R × Option PyErr :=
  match rs with
  | [] => (w, none)
  | i :: rest =>
    match receive i v w with
    | (w1, none) => send_loop rest v w1
    | (w1, some e) => (w1, some e)

/-- PortOut.send, src/mtb/system.py lines 187-190: store a copy of the
value as latest_value (unconditionally), then invoke each connected
PortIn receiver synchronously in registration order with the stored
copy. -/
def send {V R : Type} (v : V) (w : Wiring V R) : Wiring V R × Option PyErr :=
  let w1 : Wiring V R :=
    { w with out := { w.out with latest_value := some v } }
  send_loop w1.out.receivers v w1

theorem receive_ok {V R : Type} (i : Nat) (v : V) (w : Wiring V R)
    (pin : PortInSt R) (hq : w.ins[i]? = some pin) (hr : pin.receiver.isSome) :
    receive i v w = ({ w with delivered := w.delivered ++ [(i, v)] }, none) := by
  obtain ⟨r, hrec⟩ := Option.isSome_iff_exists.1 hr
  unfold receive
  rw [hq]
  dsimp only
  rw [hrec]

theorem receive_ins_out {V R : Type} (i : Nat) (v : V) (w : Wiring V R) :
    (receive i v w).1.ins = w.ins ∧ (receive i v w).1.out = w.out := by
  unfold receive
  cases hq : w.ins[i]? with
  | none => exact ⟨rfl, rfl⟩
  | some pin =>
    dsimp only
    cases hr : pin.receiver with
    | none => exact ⟨rfl, rfl⟩
    | some r => exact ⟨rfl, rfl⟩

theorem send_loop_ins_out {V R : Type} (v : V) (rs : List Nat) :
    ∀ w : Wiring V R,
      (send_loop rs v w).1.ins = w.ins ∧ (send_loop rs v w).1.out = w.out := by
  induction rs with
  | nil => intro w; exact ⟨rfl, rfl⟩
  | cons i rest ih =>
    intro w
    rcases hrec : receive i v w with ⟨w1, e⟩
    have hio := receive_ins_out i v w
    rw [hrec] at hio
    rw [send_loop, hrec]
    cases e with
    | none =>
      have h2 := ih w1
      constructor
      · show (send_loop rest v w1).1.ins = w.ins
        rw [h2.1, hio.1]
      · show (send_loop rest v w1).1.out = w.out
        rw [h2.2, hio.2]
    | some e2 =>
      exact ⟨hio.1, hio.2⟩

theorem send_loop_ok {V R : Type} (v : V) (rs : List Nat) :
    ∀ w : Wiring V R,
      (∀ i ∈ rs, ∃ pin, w.ins[i]? = some pin ∧ pin.receiver.isSome) →
      send_loop rs v w =
        ({ w with delivered := w.delivered ++ rs.map (fun i => (i, v)) }, none) := by
  induction rs with
  | nil => intro w _; simp [send_loop]
  | cons i rest ih =>
    intro w hb
    obtain ⟨pin, hq, hr⟩ := hb i (by simp)
    have hstep : send_loop (i :: rest) v w =
        send_loop rest v { w with delivered := w.delivered ++ [(i, v)] } := by
      rw [send_loop, receive_ok i v w pin hq hr]
    have hb2 : ∀ j ∈ rest,
        ∃ pin2, ({ w with delivered := w.delivered ++ [(i, v)] } :
          Wiring V R).ins[j]? = some pin2 ∧ pin2.receiver.isSome := by
      intro j hj
      exact hb j (by simp [hj])
    rw [hstep, ih _ hb2]
    simp

theorem send_project {V R : Type} (v : V) (w : Wiring V R) :
    (send v w).1.ins = w.ins ∧
    (send v w).1.out = { w.out with latest_value := some v } := by
  unfold send
  exact send_loop_ins_out v w.out.receivers
    { w with out := { w.out with latest_value := some v } }

theorem connect_success {V R : Type} (w : Wiring V R) (q : Nat)
    (pin : PortInSt R) (r : R)
    (hq : w.ins[q]? = some pin) (hr : pin.receiver = some r) :
    connect q w =
      (⟨w.ins.set q { pin with connectedFlag := true },
        { w.out with receivers := w.out.receivers ++ [q] },
        w.delivered ++
          (if w.out.cached then
            (match w.out.latest_value with
             | some v => [(q, v)]
             | none => [])
           else [])⟩, none) := by
  have hlen : q < w.ins.length := by
    by_contra hcon
    rw [List.getElem?_eq_none (by omega)] at hq
    exact Option.noConfusion hq
  have hq2 : (w.ins.set q { pin with connectedFlag := true })[q]? =
      some { pin with connectedFlag := true } :=
    List.getElem?_set_eq_of_lt _ (by simpa using hlen)
  unfold connect
  rw [hq]
  dsimp only
  rw [hr]
  dsimp only
  rw [hr] at hq2
  cases hc : w.out.cached with
  | false =>
    simp only [hc, Bool.false_eq_true, if_false]
    simp
  | true =>
    simp only [hc, if_true]
    cases hl : w.out.latest_value with
    | none =>
      simp only [hl]
      simp
    | some v =>
      simp only [hl]
      rw [receive_ok q v _ { receiver := some r, connectedFlag := true } hq2 rfl]

/-- C2. For every PortOut P and PortIn Q whose receiver is bound, when
P.send(v) happens before Q.connect(P): the connect succeeds, and when P
was declared cached the latest sent value is replayed to the receiver of
Q exactly once, synchronously, during the connect (one new entry on the
delivery trace); when P was declared non-cached nothing is replayed and
the delivery trace is untouched by the connect, so the receiver of Q
only runs on subsequent sends. -/
theorem connect_replays_latest_iff_cached {V R : Type}
    (w : Wiring V R) (q : Nat) (v : V) (pin : PortInSt R) (r : R)
    (hq : w.ins[q]? = some pin) (hr : pin.receiver = some r) :
    (connect q (send v w).1).2 = none ∧
    (connect q (send v w).1).1.delivered =
      (send v w).1.delivered ++ (if w.out.cached then [(q, v)] else []) := by
  have hp := send_project v w
  have hq1 : (send v w).1.ins[q]? = some pin := by rw [hp.1]; exact hq
  have hcs := connect_success (send v w).1 q pin r hq1 hr
  rw [hcs]
  refine ⟨rfl, ?_⟩
  rw [hp.2]

/-- Concrete instantiation of the C2 theorem: one bound PortIn, a cached
PortOut; sending 5 and then connecting replays 5 exactly once. -/
theorem connect_replays_latest_iff_cached_witness :
    (connect 0 (send 5 (⟨[⟨some (), false⟩], ⟨true, [], none⟩, []⟩ :
        Wiring Nat Unit)).1).1.delivered = [(0, 5)] := by
  have h := connect_replays_latest_iff_cached
    (⟨[⟨some (), false⟩], ⟨true, [], none⟩, []⟩ : Wiring Nat Unit)
    0 5 ⟨some (), false⟩ () rfl rfl
  rw [h.2]
  rfl

/-- C7 counterexample. The claim states that a non-cached PortOut keeps
latest_value nil after any sequence of sends; in the source, send stores
the copied value as latest_value unconditionally (src/mtb/system.py line
188), the cached flag is only consulted on connect (line 184). One send
of 5 on a non-cached PortOut already leaves latest_value = some 5. -/
theorem send_noncached_stores_counterexample :
    (⟨[], ⟨false, [], none⟩, []⟩ : Wiring Nat Unit).out.cached = false ∧
    ((send 5 (⟨[], ⟨false, [], none⟩, []⟩ : Wiring Nat Unit)).1).out.latest_value =
      some 5 :=
  ⟨rfl, rfl⟩

/-- C7 amended. PortOut.send(value) makes a defensive copy of the value
and stores it as latest_value regardless of the cached flag (the flag
controls replay-on-connect only, not storage), then invokes the receiver
of each connected PortIn synchronously in registration order. -/
theorem send_stores_and_delivers {V R : Type} (v : V) (w : Wiring V R)
    (hb : ∀ i ∈ w.out.receivers, ∃ pin, w.ins[i]? = some pin ∧ pin.receiver.isSome) :
    (send v w).1.out.latest_value = some v ∧
    (send v w).2 = none ∧
    (send v w).1.delivered =
      w.delivered ++ w.out.receivers.map (fun i => (i, v)) := by
  have hsl := send_loop_ok v w.out.receivers
    { w with out := { w.out with latest_value := some v } }
    (by intro i hi; exact hb i hi)
  have hs : send v w =
      ({ w with
          out := { w.out with latest_value := some v },
          delivered := w.delivered ++ w.out.receivers.map (fun i => (i, v)) },
        none) := by
    unfold send
    exact hsl
  rw [hs]
  exact ⟨rfl, rfl, rfl⟩

/-- Concrete instantiation of the C7 amended theorem: a non-cached
PortOut with one registered, bound receiver; send stores the value and
delivers it once. -/
theorem send_stores_and_delivers_witness :
    ((send 9 (⟨[⟨some (), true⟩], ⟨false, [0], none⟩, []⟩ :
        Wiring Nat Unit)).1).out.latest_value = some 9 ∧
    ((send 9 (⟨[⟨some (), true⟩], ⟨false, [0], none⟩, []⟩ :
        Wiring Nat Unit)).1).delivered = [(0, 9)] := by
  have h := send_stores_and_delivers 9
    (⟨[⟨some (), true⟩], ⟨false, [0], none⟩, []⟩ : Wiring Nat Unit)
    (by
      intro i hi
      simp only [List.mem_singleton] at hi
      subst hi
      exact ⟨⟨some (), true⟩, rfl, rfl⟩)
  refine ⟨h.1, ?_⟩
  rw [h.2.2]
  rfl

/-- Guard of _PortInDescriptor._set_receiver, src/mtb/system.py lines
161-164: binding a receiver when one is already bound raises
ModelingError; otherwise the receiver function is stored. The result is
the receiver slot of the descriptor after the call. -/
def set_receiver {R : Type} (recv : Option R) (f : R) : Except PyErr (Option R) :=
  match recv with
  | some _ => Except.error PyErr.modelingError
  | none => Except.ok (some f)

/-- The method _safe_get_receiver, src/mtb/system.py lines 125-130:
return the bound receiver, raising ModelingError when none is bound.
PortIn._receive dispatches every incoming value by invoking exactly the
returned receiver (lines 132-134). -/
def safe_get_receiver {R : Type} (recv : Option R) : Except PyErr R :=
  match recv with
  | none => Except.error PyErr.modelingError
  | some f => Except.ok f

/-- C8. For every PortIn descriptor that already has a receiver g bound,
binding a second receiver f raises ModelingError, the guard running
before any assignment so the first binding is untouched, and the PortIn
still dispatches incoming values to g. -/
theorem second_receiver_binding_rejected {R : Type} (g f : R) :
    set_receiver (some g) f = Except.error PyErr.modelingError ∧
    safe_get_receiver (some g) = Except.ok g :=
  ⟨rfl, rfl⟩

theorem connect_no_receiver {V R : Type} (w : Wiring V R) (q : Nat)
    (pin : PortInSt R) (hq : w.ins[q]? = some pin) (hr : pin.receiver = none) :
    connect q w = (w, some PyErr.modelingError) := by
  unfold connect
  rw [hq]
  dsimp only
  rw [hr]

/-- C9. PortIn.connect raises ModelingError when the PortIn has no
receiver bound, leaving the whole wiring state, in particular the
receiver list of the PortOut, unchanged; on success it appends the
PortIn to the receiver list of the PortOut, and afterwards the receiver
action of exactly that PortIn shows connected = true, every other PortIn
being untouched. -/
theorem connect_guard_and_marking {V R : Type} (w : Wiring V R) (q : Nat)
    (pin : PortInSt R) (hq : w.ins[q]? = some pin) :
    (pin.receiver = none → connect q w = (w, some PyErr.modelingError)) ∧
    (∀ r : R, pin.receiver = some r →
      (connect q w).2 = none ∧
      (connect q w).1.out.receivers = w.out.receivers ++ [q] ∧
      (connect q w).1.ins[q]? = some ⟨some r, true⟩ ∧
      ∀ j, j ≠ q → (connect q w).1.ins[j]? = w.ins[j]?) := by
  constructor
  · intro hr
    exact connect_no_receiver w q pin hq hr
  · intro r hr
    have hlen : q < w.ins.length := by
      by_contra hcon
      rw [List.getElem?_eq_none (by omega)] at hq
      exact Option.noConfusion hq
    rw [connect_success w q pin r hq hr]
    refine ⟨rfl, rfl, ?_, ?_⟩
    · show (w.ins.set q { pin with connectedFlag := true })[q]? = _
      rw [List.getElem?_set_eq_of_lt _ (by simpa using hlen), hr]
    · intro j hj
      show (w.ins.set q { pin with connectedFlag := true })[j]? = _
      exact List.getElem?_set_ne (by omega)

/-- Concrete instantiation of the C9 theorem: connecting an unbound
PortIn fails and changes nothing; connecting a bound PortIn registers it
and marks its receiver action connected. -/
theorem connect_guard_and_marking_witness :
    connect 0 (⟨[⟨none, false⟩], ⟨true, [], none⟩, []⟩ : Wiring Nat Unit) =
      (⟨[⟨none, false⟩], ⟨true, [], none⟩, []⟩, some PyErr.modelingError) ∧
    (connect 0 (⟨[⟨some (), false⟩], ⟨true, [], none⟩, []⟩ :
        Wiring Nat Unit)).1.out.receivers = [0] ∧
    (connect 0 (⟨[⟨some (), false⟩], ⟨true, [], none⟩, []⟩ :
        Wiring Nat Unit)).1.ins[0]? = some ⟨some (), true⟩ := by
  constructor
  · exact (connect_guard_and_marking
      (⟨[⟨none, false⟩], ⟨true, [], none⟩, []⟩ : Wiring Nat Unit)
      0 ⟨none, false⟩ rfl).1 rfl
  · have h := (connect_guard_and_marking
      (⟨[⟨some (), false⟩], ⟨true, [], none⟩, []⟩ : Wiring Nat Unit)
      0 ⟨some (), false⟩ rfl).2 () rfl
    exact ⟨h.2.1, h.2.2.1⟩

/-! ## Component construction (src/mtb/system.py lines 29-52 and
src/mtb/action.py lines 28-48)

A class body is modelled as a list of named members. An action member
carries its declared parameter list (excluding self); each parameter is
a name together with a flag telling whether the parameter appears in the
function annotations (argspec.annotations of getfullargspec). Port
members and plain attributes carry no further data needed here. -/

/-- One member value of a Component class, as classified by the scan of
Component.__post_init__: an action function (marked by the action
decorator), a PortIn, a PortOut, or any other attribute. -/
inductive MemberVal where
  | action (params : List (String × Bool))
  | portIn
  | portOut
  | plain
deriving DecidableEq

/-- Parameter scan of Action.__post_init__, src/mtb/action.py lines
34-48: walk the declared argument list in order, skip self (already
excluded here), raise ModelingError at the first parameter that is
missing from the function annotations, and collect an ActionParam for
each annotated parameter. Only the parameter names matter for the
claims, so the payload is the list of names. -/
def action_params : List (String × Bool) → Except PyErr (List String)
  | [] => Except.ok []
  | (n, true) :: rest => (action_params rest).map (fun ps => n :: ps)
  | (_, false) :: _ => Except.error PyErr.modelingError

/-- True when the member is an action having a parameter that lacks a
type marker in the annotations. -/
def has_untyped_param : MemberVal → Bool
  | MemberVal.action ps => ps.any (fun p => !p.2)
  | _ => false

def is_action_member : MemberVal → Bool
  | MemberVal.action _ => true
  | _ => false

def is_port_in_member : MemberVal → Bool
  | MemberVal.portIn => true
  | _ => false

def is_port_out_member : MemberVal → Bool
  | MemberVal.portOut => true
  | _ => false

/-- Indices a constructed Component exposes (src/mtb/system.py lines
35-52): the discovered actions, input ports and output ports, by
attribute name, in discovery order, plus whether the user init hook has
run. -/
structure ComponentSt where
  actions : List String
  input_ports : List String
  output_ports : List String
  initCalled : Bool
deriving DecidableEq

/-- The scan loop of Component.__post_init__, src/mtb/system.py lines
38-46: walk the attributes in the given order and classify each into the
action, output-port or input-port index; constructing the Action wrapper
runs the parameter scan, whose ModelingError aborts construction. -/
def scan_members : List (String × MemberVal) → ComponentSt → Except PyErr ComponentSt
  | [], st => Except.ok st
  | (n, MemberVal.action ps) :: rest, st =>
    match action_params ps with
    | Except.error e => Except.error e
    | Except.ok _ => scan_members rest { st with actions := st.actions ++ [n] }
  | (n, MemberVal.portOut) :: rest, st =>
    scan_members rest { st with output_ports := st.output_ports ++ [n] }
  | (n, MemberVal.portIn) :: rest, st =>
    scan_members rest { st with input_ports := st.input_ports ++ [n] }
  | (_, MemberVal.plain) :: rest, st => scan_members rest st

/-- Attribute order seen by the scan: dir(self) (src/mtb/system.py line
38) returns the attribute names sorted as strings, so the scan iterates
the members in sorted-name order, not declaration order. -/
def sort_by_name (members : List (String × MemberVal)) : List (String × MemberVal) :=
  List.insertionSort (fun a b => a.1.data ≤ b.1.data) members

/-- Component.__post_init__, src/mtb/system.py lines 31-52: scan all
attributes in dir() order, then (only when the scan finished without
raising) call the user-overridable init hook. -/
def component_post_init (members : List (String × MemberVal)) :
    Except PyErr ComponentSt :=
  match scan_members (sort_by_name members) ⟨[], [], [], false⟩ with
  | Except.error e => Except.error e
  | Except.ok st => Except.ok { st with initCalled := true }

theorem action_params_ok (ps : List (String × Bool))
    (h : ∀ p ∈ ps, p.2 = true) : ∃ ns, action_params ps = Except.ok ns := by
  induction ps with
  | nil => exact ⟨[], rfl⟩
  | cons p rest ih =>
    obtain ⟨n, b⟩ := p
    have hb : b = true := h (n, b) (by simp)
    subst hb
    obtain ⟨ns, hns⟩ := ih (fun q hq => h q (by simp [hq]))
    exact ⟨n :: ns, by rw [action_params, hns]; rfl⟩

theorem action_params_err (ps : List (String × Bool))
    (h : ∃ p ∈ ps, p.2 = false) :
    action_params ps = Except.error PyErr.modelingError := by
  induction ps with
  | nil => simp at h
  | cons p rest ih =>
    obtain ⟨n, b⟩ := p
    cases b with
    | false => rfl
    | true =>
      obtain ⟨q, hq, hq2⟩ := h
      simp only [List.mem_cons] at hq
      rcases hq with rfl | hq
      · exact absurd hq2 (by simp)
      · rw [action_params, ih ⟨q, hq, hq2⟩]
        rfl

theorem scan_members_ok (ms : List (String × MemberVal))
    (hgood : ∀ m ∈ ms, has_untyped_param m.2 = false) :
    ∀ st : ComponentSt,
      scan_members ms st = Except.ok
        ⟨st.actions ++ (ms.filter (fun m => is_action_member m.2)).map Prod.fst,
         st.input_ports ++ (ms.filter (fun m => is_port_in_member m.2)).map Prod.fst,
         st.output_ports ++ (ms.filter (fun m => is_port_out_member m.2)).map Prod.fst,
         st.initCalled⟩ := by
  induction ms with
  | nil => intro st; simp [scan_members]
  | cons m rest ih =>
    intro st
    have hrest : ∀ q ∈ rest, has_untyped_param q.2 = false := by
      intro q hq; exact hgood q (by simp [hq])
    obtain ⟨n, v⟩ := m
    cases v with
    | action ps =>
      have hps : ∀ p ∈ ps, p.2 = true := by
        have hm := hgood (n, MemberVal.action ps) (by simp)
        simp only [has_untyped_param, List.any_eq_false] at hm
        intro p hp
        have := hm p hp
        simpa using this
      obtain ⟨ns, hns⟩ := action_params_ok ps hps
      rw [scan_members, hns]
      rw [ih hrest]
      simp [is_action_member, is_port_in_member, is_port_out_member]
    | portIn =>
      rw [scan_members, ih hrest]
      simp [is_action_member, is_port_in_member, is_port_out_member]
    | portOut =>
      rw [scan_members, ih hrest]
      simp [is_action_member, is_port_in_member, is_port_out_member]
    | plain =>
      rw [scan_members, ih hrest]
      simp [is_action_member, is_port_in_member, is_port_out_member]

theorem scan_members_err (ms : List (String × MemberVal))
    (hbad : ∃ m ∈ ms, has_untyped_param m.2 = true) :
    ∀ st : ComponentSt,
      scan_members ms st = Except.error PyErr.modelingError := by
  induction ms with
  | nil => simp at hbad
  | cons m rest ih =>
    intro st
    obtain ⟨n, v⟩ := m
    by_cases hm : has_untyped_param v = true
    · cases v with
      | action ps =>
        simp only [has_untyped_param, List.any_eq_true] at hm
        obtain ⟨p, hp, hp2⟩ := hm
        rw [scan_members,
          action_params_err ps ⟨p, hp, by simpa using hp2⟩]
      | portIn => simp [has_untyped_param] at hm
      | portOut => simp [has_untyped_param] at hm
      | plain => simp [has_untyped_param] at hm
    · have hbad2 : ∃ q ∈ rest, has_untyped_param q.2 = true := by
        obtain ⟨q, hq, hq2⟩ := hbad
        simp only [List.mem_cons] at hq
        rcases hq with rfl | hq
        · exact absurd hq2 hm
        · exact ⟨q, hq, hq2⟩
      cases v with
      | action ps =>
        have hps : ∀ p ∈ ps, p.2 = true := by
          have hm2 : ps.any (fun p => !p.2) = false := by
            simpa [has_untyped_param] using hm
          rw [List.any_eq_false] at hm2
          intro p hp
          have h3 := hm2 p hp
          simpa using h3
        obtain ⟨ns, hns⟩ := action_params_ok ps hps
        rw [scan_members, hns, ih hbad2]
      | portIn => rw [scan_members, ih hbad2]
      | portOut => rw [scan_members, ih hbad2]
      | plain => rw [scan_members, ih hbad2]

/-- C4. Constructing a Component raises ModelingError exactly when some
action member has a parameter lacking a type marker, and the error is
raised during construction, before any other behavior: the user init
hook has run only on successfully constructed states, so the failure is
never deferred to call time. -/
theorem construction_rejects_untyped_params (members : List (String × MemberVal)) :
    (component_post_init members = Except.error PyErr.modelingError ↔
      ∃ m ∈ members, has_untyped_param m.2 = true) ∧
    (∀ st, component_post_init members = Except.ok st → st.initCalled = true) := by
  have hperm : List.Perm (sort_by_name members) members := by
    exact List.perm_insertionSort _ members
  constructor
  · constructor
    · intro h
      by_contra hbad
      have hgood : ∀ m ∈ sort_by_name members, has_untyped_param m.2 = false := by
        intro m hm
        by_contra hb
        exact hbad ⟨m, hperm.mem_iff.1 hm, by simpa using hb⟩
      rw [component_post_init, scan_members_ok (sort_by_name members) hgood] at h
      exact Except.noConfusion h
    · intro ⟨m, hm, hm2⟩
      rw [component_post_init,
        scan_members_err (sort_by_name members) ⟨m, hperm.mem_iff.2 hm, hm2⟩]
  · intro st h
    rw [component_post_init] at h
    rcases hscan : scan_members (sort_by_name members) ⟨[], [], [], false⟩ with e | st0
    · rw [hscan] at h
      exact Except.noConfusion h
    · rw [hscan] at h
      have := Except.ok.inj h
      rw [← this]

/-- Concrete instantiation of the C4 theorem: a component whose only
action has one parameter with no type marker fails construction with
ModelingError, and a well-typed variant constructs with the init hook
run. -/
theorem construction_rejects_untyped_params_witness :
    component_post_init [("a", MemberVal.action [("x", false)])] =
      Except.error PyErr.modelingError := by
  exact (construction_rejects_untyped_params
    [("a", MemberVal.action [("x", false)])]).1.2
    ⟨("a", MemberVal.action [("x", false)]), by simp, rfl⟩

/-- C10. The lists of actions, input ports and output ports that
construction populates follow attribute-name order, the sorted order
produced by dir(), not the declaration order of the class body; the
constructed state exposes exactly these lists. -/
theorem member_discovery_order (members : List (String × MemberVal))
    (st : ComponentSt) (h : component_post_init members = Except.ok st) :
    st.actions = ((sort_by_name members).filter
        (fun m => is_action_member m.2)).map Prod.fst ∧
    st.input_ports = ((sort_by_name members).filter
        (fun m => is_port_in_member m.2)).map Prod.fst ∧
    st.output_ports = ((sort_by_name members).filter
        (fun m => is_port_out_member m.2)).map Prod.fst := by
  by_cases hbad : ∃ m ∈ sort_by_name members, has_untyped_param m.2 = true
  · rw [component_post_init, scan_members_err (sort_by_name members) hbad] at h
    exact Except.noConfusion h
  · have hgood : ∀ m ∈ sort_by_name members, has_untyped_param m.2 = false := by
      intro m hm
      by_contra hb
      exact hbad ⟨m, hm, by simpa using hb⟩
    rw [component_post_init, scan_members_ok (sort_by_name members) hgood] at h
    have := Except.ok.inj h
    rw [← this]
    exact ⟨by simp, by simp, by simp⟩

/-- Concrete instantiation of the C10 theorem: members declared in the
order b_act, a_act, p_out, a_in come out sorted by attribute name, not
in declaration order. -/
theorem member_discovery_order_witness :
    ∃ st, component_post_init
        [("b_act", MemberVal.action []), ("a_act", MemberVal.action []),
         ("p_out", MemberVal.portOut), ("a_in", MemberVal.portIn)] =
        Except.ok st ∧
      st.actions = ["a_act", "b_act"] ∧
      st.input_ports = ["a_in"] ∧ st.output_ports = ["p_out"] := by
  have h : component_post_init
      [("b_act", MemberVal.action []), ("a_act", MemberVal.action []),
       ("p_out", MemberVal.portOut), ("a_in", MemberVal.portIn)] =
      Except.ok ⟨["a_act", "b_act"], ["a_in"], ["p_out"], true⟩ := by rfl
  have h2 := member_discovery_order
    [("b_act", MemberVal.action []), ("a_act", MemberVal.action []),
     ("p_out", MemberVal.portOut), ("a_in", MemberVal.portIn)]
    ⟨["a_act", "b_act"], ["a_in"], ["p_out"], true⟩ h
  refine ⟨⟨["a_act", "b_act"], ["a_in"], ["p_out"], true⟩, h, ?_, ?_, ?_⟩
  · rw [h2.1]
    rfl
  · rw [h2.2.1]
    rfl
  · rw [h2.2.2]
    rfl

/-! ## Default values of action parameters (src/mtb/action.py lines 62-80)

The aliasing behavior of copy.copy matters for this claim, so values
live in a small object store: an address-indexed heap of object
payloads. A Component field holds the address of its current value; a
default-value provider is a function of the owning component returning
the value of some field, that is, an address (or none, the Python None).
copy.copy allocates a fresh object carrying the same payload. -/

/-- Heap of Python objects: `next` is the first unallocated address,
`mem` maps allocated addresses to payloads of type `D`. -/
structure Store (D : Type) where
  next : Nat
  mem : Nat → Option D

/-- The owning Component as the provider sees it: the field the provider
reads holds the address of its current value. -/
structure OwnerSt where
  fieldAddr : Nat

/-- copy.copy of the object at payload `d`: allocate a fresh address
carrying the same payload. -/
def py_copy {D : Type} (d : D) (st : Store D) : Nat × Store D :=
  (st.next,
   { next := st.next + 1,
     mem := fun a => if a = st.next then some d else st.mem a })

/-- Mutation of the object stored at address `a` (what a test or GUI
does to a default value before submission). -/
def mutate {D : Type} (a : Nat) (d : D) (st : Store D) : Store D :=
  { st with mem := fun x => if x = a then some d else st.mem x }

/-- ActionParam.get_default_value, src/mtb/action.py lines 73-80:
default_value is the provider applied to the owner when a provider was
registered, else None; when default_value is not None a copy of it is
returned (the comment at lines 76-78 states the intent: never hand out
the live value); otherwise the structural default of the parameter type
is produced by get_type_default, modelled here as allocating a fresh
object with the given payload (its internals are the subject of the
independent get_type_default embedding below). Reading a dangling
address is modelled as a TypeError and cannot arise on a well-formed
store. -/
def get_default_value {D : Type} (get_default : Option (OwnerSt → Option Nat))
    (owner : OwnerSt) (ty_default : D) (st : Store D) :
    Except PyErr (Nat × Store D) :=
  match (match get_default with
         | some p => p owner
         | none => none) with
  | some a =>
    match st.mem a with
    | some d => Except.ok (py_copy d st)
    | none => Except.error PyErr.typeError
  | none => Except.ok (py_copy ty_default st)

/-- C5. For an ActionParam whose provider is registered and returns the
owner field value (an allocated, non-None object): get_default_value
calls the provider on the owner as it is now and returns a fresh copy of
the result, so the payload read through the returned address equals the
payload currently held by the provider result (current state, not a
frozen snapshot), the returned address differs from the field address,
and mutating the returned object leaves the object behind the field
address untouched. -/
theorem get_default_value_copies_provider {D : Type}
    (p : OwnerSt → Option Nat) (owner : OwnerSt) (ty_default : D)
    (st : Store D) (a : Nat) (d : D)
    (hp : p owner = some a) (ha : a < st.next) (hd : st.mem a = some d) :
    ∃ b st2,
      get_default_value (some p) owner ty_default st = Except.ok (b, st2) ∧
      st2.mem b = some d ∧
      b ≠ a ∧
      ∀ d2 : D, (mutate b d2 st2).mem a = some d := by
  refine ⟨st.next, (py_copy d st).2, ?_, ?_, ?_, ?_⟩
  · simp only [get_default_value, hp, hd]
    rfl
  · show (if st.next = st.next then some d else st.mem st.next) = some d
    simp
  · omega
  · intro d2
    show (if a = st.next then some d2
          else if a = st.next then some d else st.mem a) = some d
    have hne : ¬(a = st.next) := by omega
    simp only [hne, if_false]
    exact hd

/-- Concrete instantiation of the C5 theorem, following the spec
scenario: owner field d holds 5 at address 0; the returned default reads
5 through a fresh address 1, and overwriting the returned object with 9
leaves the owner field reading 5. Re-running the theorem on the store
where the field was rebound to an object holding 9 yields 9: the default
tracks current state. -/
theorem get_default_value_copies_provider_witness :
    (∃ b st2,
      get_default_value (some (fun o => some o.fieldAddr)) ⟨0⟩ 0
          ⟨1, fun a => if a = 0 then some 5 else none⟩ = Except.ok (b, st2) ∧
      st2.mem b = some 5 ∧ b ≠ 0 ∧
      ∀ d2 : Nat, (mutate b d2 st2).mem 0 = some 5) ∧
    (∃ b st2,
      get_default_value (some (fun o => some o.fieldAddr)) ⟨0⟩ 0
          ⟨1, fun a => if a = 0 then some 9 else none⟩ = Except.ok (b, st2) ∧
      st2.mem b = some 9 ∧ b ≠ 0 ∧
      ∀ d2 : Nat, (mutate b d2 st2).mem 0 = some 9) := by
  constructor
  · exact get_default_value_copies_provider (fun o => some o.fieldAddr) ⟨0⟩ 0
      ⟨1, fun a => if a = 0 then some 5 else none⟩ 0 5 rfl (by decide) rfl
  · exact get_default_value_copies_provider (fun o => some o.fieldAddr) ⟨0⟩ 0
      ⟨1, fun a => if a = 0 then some 9 else none⟩ 0 9 rfl (by decide) rfl

/-! ## Structural type defaults (src/mtb/action.py lines 83-94)

The types that get_type_default can receive: an enumeration with its
ordered member names, a dataclass with its ordered named fields, or any
other type, characterized by its name and by whether calling its
zero-argument constructor type() succeeds. CPython raises TypeError when
a constructor is called with required arguments missing, and list(type)
of an empty enumeration followed by [0] raises IndexError. -/

mutual

inductive Ty where
  | enum (members : List String)
  | dataclass (flds : FieldList)
  | base (n : String) (hasZero : Bool)

inductive FieldList where
  | nil
  | cons (name : String) (ty : Ty) (rest : FieldList)

end

/-- Python values produced by structural defaulting: an enumeration
member, a record of named field values, or the zero value produced by a
default constructor, tagged with its type name. -/
inductive PyVal where
  | enumMember (m : String)
  | record (flds : List (String × PyVal))
  | baseZero (n : String)

mutual

/-- get_type_default, src/mtb/action.py lines 83-94: first enum member
for enumeration types (IndexError when the enumeration is empty);
recursively-defaulted fields for dataclass types, in field order, the
first failing field aborting the construction; otherwise the value of
the zero-argument default constructor, whose failure is a TypeError. -/
def get_type_default : Ty → Except PyErr PyVal
  | Ty.enum [] => Except.error PyErr.indexError
  | Ty.enum (m :: _) => Except.ok (PyVal.enumMember m)
  | Ty.dataclass flds =>
    match get_field_defaults flds with
    | Except.error e => Except.error e
    | Except.ok vs => Except.ok (PyVal.record vs)
  | Ty.base n true => Except.ok (PyVal.baseZero n)
  | Ty.base _ false => Except.error PyErr.typeError

/-- The dict comprehension of src/mtb/action.py line 90: the structural
default of every field type, keyed by field name, in field order. -/
def get_field_defaults : FieldList → Except PyErr (List (String × PyVal))
  | FieldList.nil => Except.ok []
  | FieldList.cons n t rest =>
    match get_type_default t with
    | Except.error e => Except.error e
    | Except.ok v =>
      match get_field_defaults rest with
      | Except.error e => Except.error e
      | Except.ok vs => Except.ok ((n, v) :: vs)

end

/-- Relation between a dataclass field list and its recursively
defaulted values: same names in order, each value the structural default
of the matching field type. -/
def FieldsDefault : FieldList → List (String × PyVal) → Prop
  | FieldList.nil, [] => True
  | FieldList.nil, _ :: _ => False
  | FieldList.cons n t rest, vs =>
    match vs with
    | [] => False
    | (n2, v) :: vs2 =>
      n2 = n ∧ get_type_default t = Except.ok v ∧ FieldsDefault rest vs2

theorem get_field_defaults_of_fieldsDefault (flds : FieldList) :
    ∀ vals, FieldsDefault flds vals →
      get_field_defaults flds = Except.ok vals := by
  cases flds with
  | nil =>
    intro vals h
    cases vals with
    | nil => rfl
    | cons v vs => exact absurd h (by simp [FieldsDefault])
  | cons n t rest =>
    intro vals h
    cases vals with
    | nil => exact absurd h (by simp [FieldsDefault])
    | cons nv vs2 =>
      obtain ⟨n2, v⟩ := nv
      obtain ⟨h1, h2, h3⟩ := h
      subst h1
      rw [get_field_defaults, h2,
        get_field_defaults_of_fieldsDefault rest vs2 h3]

mutual

theorem gtd_err_classes (t : Ty) : ∀ e, get_type_default t = Except.error e →
    e = PyErr.typeError ∨ e = PyErr.indexError := by
  cases t with
  | enum ms =>
    cases ms with
    | nil =>
      intro e h
      rw [get_type_default] at h
      right
      exact (Except.error.inj h).symm
    | cons m ms2 =>
      intro e h
      rw [get_type_default] at h
      exact Except.noConfusion h
  | dataclass flds =>
    intro e h
    rw [get_type_default] at h
    rcases hg : get_field_defaults flds with e2 | vs
    · rw [hg] at h
      have he : e2 = e := Except.error.inj h
      exact he ▸ gfd_err_classes flds e2 hg
    · rw [hg] at h
      exact Except.noConfusion h
  | base n hz =>
    cases hz with
    | true =>
      intro e h
      rw [get_type_default] at h
      exact Except.noConfusion h
    | false =>
      intro e h
      rw [get_type_default] at h
      left
      exact (Except.error.inj h).symm

theorem gfd_err_classes (fl : FieldList) : ∀ e, get_field_defaults fl = Except.error e →
    e = PyErr.typeError ∨ e = PyErr.indexError := by
  cases fl with
  | nil =>
    intro e h
    rw [get_field_defaults] at h
    exact Except.noConfusion h
  | cons n t rest =>
    intro e h
    rw [get_field_defaults] at h
    rcases hg : get_type_default t with e2 | v
    · rw [hg] at h
      have he : e2 = e := Except.error.inj h
      exact he ▸ gtd_err_classes t e2 hg
    · rw [hg] at h
      rcases hg2 : get_field_defaults rest with e3 | vs
      · rw [hg2] at h
        have he : e3 = e := Except.error.inj h
        exact he ▸ gfd_err_classes rest e3 hg2
      · rw [hg2] at h
        exact Except.noConfusion h

end

/-- C6 counterexample. The claim says that for a type unsupported by
structural defaulting, with collection types among the examples,
get_type_default fails with a NotImplementedError-class error. In the
source the fallback branch calls the zero-argument constructor type()
(src/mtb/action.py line 94): for the collection type list this succeeds
and returns the empty list, and for an opaque type whose constructor
requires arguments the failure is the TypeError of that call, which is
not a NotImplementedError-class error. -/
theorem get_type_default_counterexample :
    get_type_default (Ty.base "list" true) = Except.ok (PyVal.baseZero "list") ∧
    get_type_default (Ty.base "Opaque" false) = Except.error PyErr.typeError ∧
    PyErr.typeError ≠ PyErr.notImplementedError :=
  ⟨rfl, rfl, by decide⟩

/-- C6 amended. With no registered provider, get_default_value falls
back on get_type_default, which synthesizes a structural default from
the parameter type: the first enumerant for enumeration types, a
recursively-defaulted instance for dataclass types, and the value of the
zero-argument default constructor otherwise, so a collection type with a
zero-argument constructor succeeds with its empty value; a type whose
zero-argument construction fails raises that TypeError (and an empty
enumeration an IndexError), never a NotImplementedError-class error. -/
theorem get_type_default_characterization :
    (∀ (m : String) (ms : List String),
      get_type_default (Ty.enum (m :: ms)) = Except.ok (PyVal.enumMember m)) ∧
    (∀ (flds : FieldList) (vals : List (String × PyVal)),
      FieldsDefault flds vals →
      get_type_default (Ty.dataclass flds) = Except.ok (PyVal.record vals)) ∧
    (∀ n, get_type_default (Ty.base n true) = Except.ok (PyVal.baseZero n)) ∧
    (∀ n, get_type_default (Ty.base n false) = Except.error PyErr.typeError) ∧
    (get_type_default (Ty.enum []) = Except.error PyErr.indexError) ∧
    (∀ t e, get_type_default t = Except.error e → e ≠ PyErr.notImplementedError) := by
  refine ⟨fun m ms => rfl, ?_, fun n => rfl, fun n => rfl, rfl, ?_⟩
  · intro flds vals h
    rw [get_type_default, get_field_defaults_of_fieldsDefault flds vals h]
  · intro t e h
    rcases gtd_err_classes t e h with he | he <;> subst he <;> decide

/-- Concrete instantiation of the C6 amended theorem: a dataclass with
an enumeration field and an int field defaults to the record of the
first enumerant and the int zero value. -/
theorem get_type_default_characterization_witness :
    get_type_default (Ty.dataclass (FieldList.cons "kind" (Ty.enum ["on", "off"])
        (FieldList.cons "count" (Ty.base "int" true) FieldList.nil))) =
      Except.ok (PyVal.record
        [("kind", PyVal.enumMember "on"), ("count", PyVal.baseZero "int")]) := by
  exact get_type_default_characterization.2.1
    (FieldList.cons "kind" (Ty.enum ["on", "off"])
      (FieldList.cons "count" (Ty.base "int" true) FieldList.nil))
    [("kind", PyVal.enumMember "on"), ("count", PyVal.baseZero "int")]
    ⟨rfl, rfl, rfl, rfl, trivial⟩

end Mtb
